import Mathlib

/-!
Shallow embedding of the routerify-query middleware (src/lib.rs, src/ext.rs).

Strings are modelled as byte lists (`List Nat`, each entry a byte value):
the Rust code parses `query_str.as_bytes()` and the decoding of
`form_urlencoded::parse` operates on bytes.  The final
`decode_utf8_lossy` step of the `url` crate is the identity on the byte
content whenever the decoded bytes are valid UTF-8 (every input appearing
in the spec's examples is ASCII), so values are kept as byte lists.

The decoder (`splitAmp`, `rawName`, `rawValue`, `decode`, `parse`) embeds
`form_urlencoded::parse` of the `url` crate, the function invoked on line
117 of src/lib.rs: the input is cut at every `&` (byte 38), empty
sequences are skipped, each sequence is cut at its first `=` (byte 61)
into a name and a value (empty value when there is no `=`), `+` (byte 43)
is replaced by space (byte 32) in both, and both are percent-decoded,
a `%` (byte 37) followed by two hex digits becoming the denoted byte and
any malformed `%` passing through unchanged.

`HashMap<String, String>` is modelled as an association list with unique
keys: `insertQ` replaces the value of an existing key in place and
appends a new key at the end, exactly the observable behaviour of
`HashMap::insert`, and `getQ` models `HashMap::get`.  `collect()` on the
pair iterator is `collectQ`, a left fold of `insertQ`.

A request is its URI's optional raw query string plus the extensions
slot for the crate-private `Query` type; the generic error type `E` of
the middleware handler is an explicit type parameter `ε`.  The `expect`
panic in `RequestQueryExt::queries` is modelled by the `Panics` result
type, whose `panic` constructor is distinct from every ordinary result.
-/

namespace RouterifyQuery

/-- Byte strings: the byte content of a Rust `&str` / `String`. -/
abbrev ByteStr := List Nat

/-- Models `char::to_digit(16)` applied to a byte, as used by the
percent-decoder: values of `0`-`9`, `a`-`f`, `A`-`F`. -/
def hexVal (b : Nat) : Option Nat :=
  if 48 ≤ b ∧ b ≤ 57 then some (b - 48)
  else if 97 ≤ b ∧ b ≤ 102 then some (b - 87)
  else if 65 ≤ b ∧ b ≤ 70 then some (b - 55)
  else none

/-- Models the `percent_decode` iterator of the `percent-encoding` crate:
a `%` followed by two hex digits yields the denoted byte and consumes
them; otherwise the `%` passes through and decoding resumes right after
it. -/
def percentDecode : List Nat → List Nat
  | [] => []
  | 37 :: h :: l :: rest2 =>
    match hexVal h, hexVal l with
    | some hv, some lv => (hv * 16 + lv) :: percentDecode rest2
    | _, _ => 37 :: percentDecode (h :: l :: rest2)
  | 37 :: rest => 37 :: percentDecode rest
  | b :: rest => b :: percentDecode rest

/-- Models `replace_plus` of `form_urlencoded`: byte 43 (`+`) becomes
byte 32 (space), before percent-decoding. -/
def replacePlus (s : ByteStr) : ByteStr :=
  s.map fun b => if b = 43 then 32 else b

/-- Models `form_urlencoded`'s `decode` of a name or value: replace `+`
by space, then percent-decode (the trailing lossy UTF-8 conversion is
the identity on byte content for valid UTF-8, see the module comment). -/
def decode (s : ByteStr) : ByteStr :=
  percentDecode (replacePlus s)

/-- Cuts the input at every `&` (byte 38), keeping empty pieces: the
sequence of `splitn(2, b, &)` sequences produced by the `Parse` iterator
of `form_urlencoded`, before empty sequences are skipped. -/
def splitAmp : List Nat → List (List Nat)
  | [] => [[]]
  | b :: t =>
    if b = 38 then [] :: splitAmp t
    else
      match splitAmp t with
      | [] => [[b]]
      | s :: ss => (b :: s) :: ss

/-- The part of a raw pair before its first `=` (byte 61): the `name`
half of `splitn(2, b, =)`. -/
def rawName (seg : ByteStr) : ByteStr :=
  seg.takeWhile fun b => decide (b ≠ 61)

/-- The part of a raw pair after its first `=` (byte 61), empty when the
pair has no `=`: the `value` half of `splitn(2, b, =)`. -/
def rawValue (seg : ByteStr) : ByteStr :=
  (seg.dropWhile fun b => decide (b ≠ 61)).drop 1

/-- One step of the `Parse` iterator on a single sequence: an empty
sequence is skipped (`continue` in the loop), any other yields the
decoded name and decoded value. -/
def decodeSeg (seg : ByteStr) : Option (ByteStr × ByteStr) :=
  if seg = [] then none
  else some (decode (rawName seg), decode (rawValue seg))

/-- Models `form_urlencoded::parse(s.as_bytes()).into_owned()` as the
list of decoded pairs it yields, in order. -/
def parse (s : ByteStr) : List (ByteStr × ByteStr) :=
  (splitAmp s).filterMap decodeSeg

/-- The map held by the crate-private `Query` newtype: a
`HashMap<String, String>` modelled as an association list with unique
keys. -/
abbrev QueryMap := List (ByteStr × ByteStr)

/-- Models `HashMap::insert`: the value of an existing key is updated in
place (the stored key is not replaced), a new key is appended. -/
def insertQ : QueryMap → ByteStr → ByteStr → QueryMap
  | [], k, v => [(k, v)]
  | p :: t, k, v => if p.1 = k then (p.1, v) :: t else p :: insertQ t k v

/-- Models `collect::<HashMap<_, _>>()` on the decoded pair iterator:
pairs are inserted left to right. -/
def collectQ (ps : List (ByteStr × ByteStr)) : QueryMap :=
  ps.foldl (fun m pr => insertQ m pr.1 pr.2) []

/-- Models `HashMap::get`. -/
def getQ : QueryMap → ByteStr → Option ByteStr
  | [], _ => none
  | p :: t, k => if p.1 = k then some p.2 else getQ t k

/-- The query map the handler computes from `req.uri().query()`: the
empty map when the URI has no query string, otherwise the collected
output of `form_urlencoded::parse` (src/lib.rs lines 114-118). -/
def decodeQuery : Option ByteStr → QueryMap
  | none => []
  | some s => collectQ (parse s)

/-- A request, reduced to what the middleware reads and writes: the
URI's optional raw query string (`req.uri().query()`) and the
extensions slot of the crate-private `Query` type. -/
structure Request where
  uriQuery : Option ByteStr
  extQuery : Option QueryMap
  deriving DecidableEq

/-- Embeds `query_parser_middleware_handler` (src/lib.rs lines 110-123):
start from the empty map, replace it with the parsed query string when
one is present, insert the result into the extensions (overwriting any
previous `Query` entry), and return `Ok(req)`.  The error type `E` is
the explicit parameter `ε`; no error value is ever produced. -/
def query_parser_middleware_handler (ε : Type) (req : Request) :
    Except ε Request :=
  Except.ok { req with extQuery := some (decodeQuery req.uriQuery) }

/-- Result of an accessor call: `panic` models the `expect` panic of
`RequestQueryExt::queries` (src/ext.rs line 127), `ok` an ordinary
return. -/
inductive Panics (α : Type) where
  | panic : Panics α
  | ok : α → Panics α
  deriving DecidableEq

/-- Embeds `RequestQueryExt::queries` (src/ext.rs lines 123-128): the
`Query` extension's map, or the `expect` panic when the middleware never
ran on this request. -/
def queries (req : Request) : Panics QueryMap :=
  match req.extQuery with
  | some q => Panics.ok q
  | none => Panics.panic

/-- Embeds `RequestQueryExt::query` (src/ext.rs lines 130-132):
`self.queries().get(name)`; it inherits the panic of `queries`. -/
def query (req : Request) (query_name : ByteStr) : Panics (Option ByteStr) :=
  match queries req with
  | Panics.ok m => Panics.ok (getQ m query_name)
  | Panics.panic => Panics.panic

/-- Embeds `RequestQueryExt::query_parsed` (src/ext.rs lines 134-136):
`self.query(name).map(parse)` for a target type with parser `p`
(Rust's `T: FromStr`, `p` standing for `str::parse::<T>`). -/
def query_parsed (α ε : Type) (p : ByteStr → Except ε α) (req : Request)
    (query_name : ByteStr) : Panics (Option (Except ε α)) :=
  match query req query_name with
  | Panics.ok o => Panics.ok (o.map p)
  | Panics.panic => Panics.panic

/-- Value of the last pair with the given name in a pair list: the pure
description of `last occurrence wins` that `collectQ` is claimed to
implement. -/
def lastOcc : List (ByteStr × ByteStr) → ByteStr → Option ByteStr
  | [], _ => none
  | p :: t, k =>
    match lastOcc t k with
    | some v => some v
    | none => if p.1 = k then some p.2 else none

/-- Joins raw pairs with `&` (byte 38): the shape of a query string
consisting of &-separated pairs, used to quantify over such strings. -/
def joinAmp : List ByteStr → ByteStr
  | [] => []
  | [seg] => seg
  | seg :: rest => seg ++ 38 :: joinAmp rest

/-- Error kinds of Rust's integer `FromStr` that can arise when parsing
an unsigned integer. -/
inductive IntErrorKind where
  | empty : IntErrorKind
  | invalidDigit : IntErrorKind
  | posOverflow : IntErrorKind
  deriving DecidableEq

deriving instance DecidableEq for Except

/-- Value of a decimal digit byte, `char::to_digit(10)`. -/
def digitVal (b : Nat) : Option Nat :=
  if 48 ≤ b ∧ b ≤ 57 then some (b - 48) else none

/-- Largest value of a 64-bit `usize`. -/
def usizeMax : Nat := 2 ^ 64 - 1

/-- Digit-accumulation loop of `from_str_radix` for `usize`, radix 10:
each byte must be a decimal digit, and the accumulator may not exceed
`usizeMax`. -/
def parseUsizeLoop : List Nat → Nat → Except IntErrorKind Nat
  | [], acc => Except.ok acc
  | b :: t, acc =>
    match digitVal b with
    | none => Except.error IntErrorKind.invalidDigit
    | some d =>
      if acc * 10 + d > usizeMax then Except.error IntErrorKind.posOverflow
      else parseUsizeLoop t (acc * 10 + d)

/-- Models `usize::from_str` (the `T: FromStr` instance of the spec's
`get_parsed::<usize>` example): empty input is the `Empty` error, one
leading `+` (byte 43) is allowed but must be followed by at least one
digit, a `-` is not accepted for an unsigned type. -/
def parseUsize (s : ByteStr) : Except IntErrorKind Nat :=
  match s with
  | [] => Except.error IntErrorKind.empty
  | b :: t =>
    let digits := if b = 43 then t else b :: t
    if digits = [] then Except.error IntErrorKind.invalidDigit
    else parseUsizeLoop digits 0

/-! Helper lemmas about the decoder. -/

theorem splitAmp_ne_nil (s : List Nat) : splitAmp s ≠ [] := by
  cases s with
  | nil => simp [splitAmp]
  | cons b t =>
    simp only [splitAmp]
    split
    · simp
    · split <;> simp

theorem splitAmp_no_sep (s : List Nat) (h : 38 ∉ s) : splitAmp s = [s] := by
  induction s with
  | nil => rfl
  | cons b t ih =>
    have hb : b ≠ 38 := fun e => h (e ▸ List.mem_cons_self b t)
    have ht : 38 ∉ t := fun m => h (List.mem_cons_of_mem b m)
    simp only [splitAmp, if_neg hb, ih ht]

theorem splitAmp_append (a b : List Nat) :
    splitAmp (a ++ 38 :: b) = splitAmp a ++ splitAmp b := by
  induction a with
  | nil => simp [splitAmp]
  | cons x a ih =>
    by_cases hx : x = 38
    · subst hx
      simp [splitAmp, List.append_eq, ih]
    · obtain ⟨s, ss, hss⟩ : ∃ s ss, splitAmp a = s :: ss := by
        cases h : splitAmp a with
        | nil => exact absurd h (splitAmp_ne_nil a)
        | cons s ss => exact ⟨s, ss, rfl⟩
      simp only [List.cons_append, splitAmp, if_neg hx, List.append_eq, ih, hss]

theorem parse_append (a b : List Nat) :
    parse (a ++ 38 :: b) = parse a ++ parse b := by
  simp [parse, splitAmp_append, List.filterMap_append]

theorem parse_sep_cons (b : List Nat) : parse (38 :: b) = parse b := by
  simp [parse, splitAmp, decodeSeg]

theorem rawName_no_eq (seg : ByteStr) (h : 61 ∉ seg) : rawName seg = seg := by
  induction seg with
  | nil => rfl
  | cons x t ih =>
    have hx : x ≠ 61 := fun e => h (e ▸ List.mem_cons_self x t)
    have ht : 61 ∉ t := fun m => h (List.mem_cons_of_mem x m)
    simp [rawName, hx] at ih ⊢
    exact ih ht

theorem rawValue_no_eq (seg : ByteStr) (h : 61 ∉ seg) : rawValue seg = [] := by
  induction seg with
  | nil => rfl
  | cons x t ih =>
    have hx : x ≠ 61 := fun e => h (e ▸ List.mem_cons_self x t)
    have ht : 61 ∉ t := fun m => h (List.mem_cons_of_mem x m)
    simp [rawValue, hx] at ih ⊢
    exact ih ht

theorem rawName_append (n v : ByteStr) (h : 61 ∉ n) :
    rawName (n ++ 61 :: v) = n := by
  induction n with
  | nil => simp [rawName]
  | cons x t ih =>
    have hx : x ≠ 61 := fun e => h (e ▸ List.mem_cons_self x t)
    have ht : 61 ∉ t := fun m => h (List.mem_cons_of_mem x m)
    simp [rawName, hx] at ih ⊢
    exact ih ht

theorem rawValue_append (n v : ByteStr) (h : 61 ∉ n) :
    rawValue (n ++ 61 :: v) = v := by
  induction n with
  | nil => simp [rawValue]
  | cons x t ih =>
    have hx : x ≠ 61 := fun e => h (e ▸ List.mem_cons_self x t)
    have ht : 61 ∉ t := fun m => h (List.mem_cons_of_mem x m)
    simp [rawValue, hx] at ih ⊢
    exact ih ht

theorem parse_single (seg : ByteStr) (hne : seg ≠ []) (h38 : 38 ∉ seg) :
    parse seg = [(decode (rawName seg), decode (rawValue seg))] := by
  simp [parse, splitAmp_no_sep seg h38, decodeSeg, hne]

theorem parse_pair (n v : ByteStr) (h61 : 61 ∉ n) (h38n : 38 ∉ n)
    (h38v : 38 ∉ v) :
    parse (n ++ 61 :: v) = [(decode n, decode v)] := by
  have hne : n ++ 61 :: v ≠ [] := by simp
  have h38 : 38 ∉ n ++ 61 :: v := by
    intro hm
    rcases List.mem_append.mp hm with hm | hm
    · exact h38n hm
    · rcases List.mem_cons.mp hm with hm | hm
      · exact absurd hm (by decide)
      · exact h38v hm
  rw [parse_single _ hne h38, rawName_append n v h61, rawValue_append n v h61]

theorem parse_joinAmp (segs : List ByteStr)
    (h : ∀ seg ∈ segs, seg ≠ [] ∧ 38 ∉ seg) :
    parse (joinAmp segs) =
      segs.map fun seg => (decode (rawName seg), decode (rawValue seg)) := by
  induction segs with
  | nil => rfl
  | cons seg rest ih =>
    have hseg := h seg (List.mem_cons_self seg rest)
    have hrest : ∀ s ∈ rest, s ≠ [] ∧ 38 ∉ s :=
      fun s hs => h s (List.mem_cons_of_mem seg hs)
    cases rest with
    | nil => simp [joinAmp, parse_single seg hseg.1 hseg.2]
    | cons s2 r2 =>
      have : joinAmp (seg :: s2 :: r2) = seg ++ 38 :: joinAmp (s2 :: r2) := rfl
      rw [this, parse_append, parse_single seg hseg.1 hseg.2, ih hrest]
      simp

/-! Helper lemmas about the map model. -/

theorem getQ_insertQ (m : QueryMap) (k v k' : ByteStr) :
    getQ (insertQ m k v) k' = if k' = k then some v else getQ m k' := by
  induction m with
  | nil =>
    by_cases h : k' = k
    · subst h; simp [insertQ, getQ]
    · simp [insertQ, getQ, h, Ne.symm h]
  | cons p t ih =>
    simp only [insertQ]
    by_cases hp : p.1 = k
    · rw [if_pos hp]
      by_cases h : k' = k
      · subst h
        rw [if_pos rfl]
        simp only [getQ]
        rw [if_pos hp]
      · rw [if_neg h]
        have hp' : ¬ p.1 = k' := fun e => h (e.symm.trans hp)
        simp only [getQ]
        rw [if_neg hp', if_neg hp']
    · rw [if_neg hp]
      by_cases h2 : p.1 = k'
      · have hk : ¬ k' = k := fun e => hp (h2.trans e)
        simp only [getQ]
        rw [if_pos h2, if_neg hk]
        rw [if_pos h2]
      · simp only [getQ]
        rw [if_neg h2, ih]
        by_cases h : k' = k
        · rw [if_pos h, if_pos h]
        · rw [if_neg h, if_neg h]
          rw [if_neg h2]

theorem getQ_foldl_insert (ps : List (ByteStr × ByteStr)) (m : QueryMap)
    (k : ByteStr) :
    getQ (ps.foldl (fun m pr => insertQ m pr.1 pr.2) m) k =
      match lastOcc ps k with
      | some v => some v
      | none => getQ m k := by
  induction ps generalizing m with
  | nil => simp [lastOcc]
  | cons p t ih =>
    simp only [List.foldl_cons, lastOcc, ih]
    cases h : lastOcc t k with
    | some v => simp
    | none =>
      simp only [getQ_insertQ]
      by_cases hk : k = p.1
      · rw [if_pos hk, if_pos hk.symm]
      · rw [if_neg hk, if_neg (fun e : p.1 = k => hk e.symm)]

theorem getQ_collectQ (ps : List (ByteStr × ByteStr)) (k : ByteStr) :
    getQ (collectQ ps) k = lastOcc ps k := by
  rw [collectQ, getQ_foldl_insert]
  cases lastOcc ps k <;> simp [getQ]

theorem lastOcc_eq_none (ps : List (ByteStr × ByteStr)) (k : ByteStr)
    (h : k ∉ ps.map Prod.fst) : lastOcc ps k = none := by
  induction ps with
  | nil => rfl
  | cons p t ih =>
    have h1 : p.1 ≠ k := fun e => h (by simp [e])
    have h2 : k ∉ t.map Prod.fst := fun m => h (by simp at m ⊢; right; exact m)
    simp [lastOcc, ih h2, h1]

theorem lastOcc_nodup (ps : List (ByteStr × ByteStr)) (k v : ByteStr)
    (hnd : (ps.map Prod.fst).Nodup) (hm : (k, v) ∈ ps) :
    lastOcc ps k = some v := by
  induction ps with
  | nil => cases hm
  | cons p t ih =>
    have hnd' : (t.map Prod.fst).Nodup := (List.nodup_cons.mp hnd).2
    rcases List.mem_cons.mp hm with h | h
    · have hk : k ∉ t.map Prod.fst := by
        have := (List.nodup_cons.mp hnd).1
        simpa [← h] using this
      simp [lastOcc, lastOcc_eq_none t k hk, ← h]
    · simp [lastOcc, ih hnd' h]

/-! Helper lemma about the middleware handler. -/

theorem handler_ok (ε : Type) (req req' : Request)
    (h : query_parser_middleware_handler ε req = Except.ok req') :
    req' = { req with extQuery := some (decodeQuery req.uriQuery) } := by
  simp only [query_parser_middleware_handler, Except.ok.injEq] at h
  exact h.symm

/-! Claim theorems. -/

/-- Claim C1: for a query string made of &-separated pairs whose decoded
names are pairwise distinct, running the middleware handler and then
looking any present name up through the accessor returns that name's
decoded value, and looking up a name that is not present returns none. -/
theorem claim_c1_roundtrip (rawPairs : List ByteStr) (ε : Type)
    (req req' : Request)
    (hsegs : ∀ seg ∈ rawPairs, seg ≠ [] ∧ 38 ∉ seg)
    (hnd : (rawPairs.map fun seg => decode (rawName seg)).Nodup)
    (hq : req.uriQuery = some (joinAmp rawPairs))
    (hrun : query_parser_middleware_handler ε req = Except.ok req') :
    (∀ seg ∈ rawPairs,
        query req' (decode (rawName seg)) =
          Panics.ok (some (decode (rawValue seg)))) ∧
    (∀ k, k ∉ rawPairs.map (fun seg => decode (rawName seg)) →
        query req' k = Panics.ok none) := by
  have e := handler_ok ε req req' hrun
  subst e
  rw [hq]
  have hparse := parse_joinAmp rawPairs hsegs
  have hnd' : ((rawPairs.map fun seg =>
      (decode (rawName seg), decode (rawValue seg))).map Prod.fst).Nodup := by
    simpa [List.map_map, Function.comp] using hnd
  constructor
  · intro seg hs
    simp only [query, queries, decodeQuery]
    rw [getQ_collectQ, hparse]
    rw [lastOcc_nodup _ _ (decode (rawValue seg)) hnd'
      (List.mem_map.mpr ⟨seg, hs, rfl⟩)]
  · intro k hk
    have hk' : k ∉ (rawPairs.map fun seg =>
        (decode (rawName seg), decode (rawValue seg))).map Prod.fst := by
      simpa [List.map_map, Function.comp] using hk
    simp only [query, queries, decodeQuery]
    rw [getQ_collectQ, hparse, lastOcc_eq_none _ _ hk']

/-- Witness for C1 at the query string a=1&b=2: a maps to 1, b maps to
2, and c is absent. -/
theorem claim_c1_witness :
    query (Request.mk (some [97, 61, 49, 38, 98, 61, 50])
        (some [([97], [49]), ([98], [50])])) [97] = Panics.ok (some [49]) ∧
    query (Request.mk (some [97, 61, 49, 38, 98, 61, 50])
        (some [([97], [49]), ([98], [50])])) [98] = Panics.ok (some [50]) ∧
    query (Request.mk (some [97, 61, 49, 38, 98, 61, 50])
        (some [([97], [49]), ([98], [50])])) [99] = Panics.ok none := by
  have h := claim_c1_roundtrip [[97, 61, 49], [98, 61, 50]] Unit
      (Request.mk (some [97, 61, 49, 38, 98, 61, 50]) none)
      (Request.mk (some [97, 61, 49, 38, 98, 61, 50])
        (some [([97], [49]), ([98], [50])]))
      (by decide) (by decide) (by decide) (by decide)
  refine ⟨?_, ?_, ?_⟩
  · have h1 := h.1 [97, 61, 49] (by decide)
    have e1 : decode (rawName [97, 61, 49]) = [97] := by decide
    have e2 : decode (rawValue [97, 61, 49]) = [49] := by decide
    rw [e1, e2] at h1
    exact h1
  · have h1 := h.1 [98, 61, 50] (by decide)
    have e1 : decode (rawName [98, 61, 50]) = [98] := by decide
    have e2 : decode (rawValue [98, 61, 50]) = [50] := by decide
    rw [e1, e2] at h1
    exact h1
  · exact h.2 [99] (by decide)

/-- Claim C2: collecting the decoded pairs into the map makes the last
occurrence of a name win, and in particular decoding a=1&a=2 gives a
map where a is mapped to 2. -/
theorem claim_c2_last_occurrence_wins :
    (∀ s k : ByteStr, getQ (decodeQuery (some s)) k = lastOcc (parse s) k) ∧
    getQ (decodeQuery (some [97, 61, 49, 38, 97, 61, 50])) [97] = some [50] := by
  refine ⟨fun s k => ?_, by decide⟩
  simp [decodeQuery, getQ_collectQ]

/-- Claim C3: on a request whose URI has no query string the handler
succeeds and stores the empty map, on which every lookup returns none. -/
theorem claim_c3_no_query_string (ε : Type) (req req' : Request)
    (hq : req.uriQuery = none)
    (hrun : query_parser_middleware_handler ε req = Except.ok req') :
    req'.extQuery = some [] ∧ ∀ x, query req' x = Panics.ok none := by
  have e := handler_ok ε req req' hrun
  subst e
  rw [hq]
  exact ⟨rfl, fun x => rfl⟩

/-- Witness for C3: a concrete request without a query string gets the
empty map, and looking up the name x returns none. -/
theorem claim_c3_witness :
    (Request.mk none (some [])).extQuery = some [] ∧
    query (Request.mk none (some [])) [120] = Panics.ok none := by
  have h := claim_c3_no_query_string Unit (Request.mk none none)
      (Request.mk none (some [])) rfl rfl
  exact ⟨h.1, h.2 [120]⟩

/-- Claim C4: both the name and the value of a pair are form-decoded,
with plus becoming a space and percent-escapes becoming the denoted
byte. -/
theorem claim_c4_form_decoding (n v : ByteStr)
    (h61 : 61 ∉ n) (h38n : 38 ∉ n) (h38v : 38 ∉ v) :
    parse (n ++ 61 :: v) = [(decode n, decode v)] ∧
    getQ (decodeQuery (some (n ++ 61 :: v))) (decode n) = some (decode v) := by
  have hp := parse_pair n v h61 h38n h38v
  refine ⟨hp, ?_⟩
  simp [decodeQuery, hp, collectQ, insertQ, getQ]

/-- Witness for C4: decoding name=John+Doe stores the value John Doe
for name, and decoding name=A%26B stores the value A&B. -/
theorem claim_c4_witness :
    getQ (decodeQuery
        (some [110, 97, 109, 101, 61, 74, 111, 104, 110, 43, 68, 111, 101]))
      [110, 97, 109, 101] = some [74, 111, 104, 110, 32, 68, 111, 101] ∧
    getQ (decodeQuery (some [110, 97, 109, 101, 61, 65, 37, 50, 54, 66]))
      [110, 97, 109, 101] = some [65, 38, 66] := by
  constructor
  · have h := (claim_c4_form_decoding [110, 97, 109, 101]
        [74, 111, 104, 110, 43, 68, 111, 101]
        (by decide) (by decide) (by decide)).2
    have e1 : decode [110, 97, 109, 101] = [110, 97, 109, 101] := by decide
    have e2 : decode [74, 111, 104, 110, 43, 68, 111, 101] =
        [74, 111, 104, 110, 32, 68, 111, 101] := by decide
    rw [e1, e2] at h
    simpa using h
  · have h := (claim_c4_form_decoding [110, 97, 109, 101]
        [65, 37, 50, 54, 66] (by decide) (by decide) (by decide)).2
    have e1 : decode [110, 97, 109, 101] = [110, 97, 109, 101] := by decide
    have e2 : decode [65, 37, 50, 54, 66] = [65, 38, 66] := by decide
    rw [e1, e2] at h
    simpa using h

/-- Claim C5: the raw query string is split on the ampersand, each raw
pair is split at its first equals sign, and a pair without an equals
sign yields the decoded pair text with the empty value. -/
theorem claim_c5_splitting (a b seg v : ByteStr)
    (hne : seg ≠ []) (h38 : 38 ∉ seg) (h61 : 61 ∉ seg) (h38v : 38 ∉ v) :
    parse (a ++ 38 :: b) = parse a ++ parse b ∧
    parse seg = [(decode seg, decode [])] ∧
    getQ (decodeQuery (some seg)) (decode seg) = some (decode []) ∧
    parse (seg ++ 61 :: v) = [(decode seg, decode v)] := by
  have h2 : parse seg = [(decode seg, decode [])] := by
    rw [parse_single seg hne h38, rawName_no_eq seg h61, rawValue_no_eq seg h61]
  refine ⟨parse_append a b, h2, ?_, parse_pair seg v h61 h38 h38v⟩
  simp [decodeQuery, h2, collectQ, insertQ, getQ]

/-- Witness for C5 at the raw pairs a=1, b=2, the pair flag without an
equals sign, and the pair flag=x=y whose value itself holds an equals
sign. -/
theorem claim_c5_witness :
    parse ([97, 61, 49] ++ 38 :: [98, 61, 50]) =
      parse [97, 61, 49] ++ parse [98, 61, 50] ∧
    parse [102, 108, 97, 103] = [(decode [102, 108, 97, 103], decode [])] ∧
    getQ (decodeQuery (some [102, 108, 97, 103]))
      (decode [102, 108, 97, 103]) = some (decode []) ∧
    parse ([102, 108, 97, 103] ++ 61 :: [120, 61, 121]) =
      [(decode [102, 108, 97, 103], decode [120, 61, 121])] :=
  claim_c5_splitting [97, 61, 49] [98, 61, 50] [102, 108, 97, 103]
    [120, 61, 121] (by decide) (by decide) (by decide) (by decide)

/-- Claim C6: the handler always returns success, for every request and
every error type, and malformed percent-escapes are absorbed: the query
string a=%zz decodes to the map sending a to the literal bytes of %zz. -/
theorem claim_c6_never_fails :
    (∀ (ε : Type) (req : Request), ∃ req',
        query_parser_middleware_handler ε req = Except.ok req') ∧
    decodeQuery (some [97, 61, 37, 122, 122]) = [([97], [37, 122, 122])] :=
  ⟨fun _ req => ⟨{ req with extQuery := some (decodeQuery req.uriQuery) }, rfl⟩,
    by decide⟩

/-- Claim C7: on a request the middleware never ran on, every accessor
panics, and the panic is distinct from the ordinary absent result. -/
theorem claim_c7_panics_when_unbound (req : Request)
    (h : req.extQuery = none) :
    queries req = Panics.panic ∧
    (∀ name, query req name = Panics.panic) ∧
    (∀ (α ε : Type) (p : ByteStr → Except ε α) (name : ByteStr),
        query_parsed α ε p req name = Panics.panic) ∧
    (∀ name, query req name ≠ Panics.ok none) := by
  have hq : queries req = Panics.panic := by simp [queries, h]
  have hqy : ∀ name, query req name = Panics.panic := by
    intro name; simp [query, hq]
  exact ⟨hq, hqy, fun α ε p name => by simp [query_parsed, hqy],
    fun name => by simp [hqy]⟩

/-- Witness for C7: on a concrete request without the extension entry
all three accessors panic, distinguishably from an absent parameter. -/
theorem claim_c7_witness :
    queries (Request.mk (some []) none) = Panics.panic ∧
    query (Request.mk (some []) none) [112] = Panics.panic ∧
    query_parsed Nat IntErrorKind parseUsize
      (Request.mk (some []) none) [112] = Panics.panic ∧
    query (Request.mk (some []) none) [112] ≠ Panics.ok none := by
  have h := claim_c7_panics_when_unbound (Request.mk (some []) none) rfl
  exact ⟨h.1, h.2.1 [112], h.2.2.1 Nat IntErrorKind parseUsize [112],
    h.2.2.2 [112]⟩

/-- Claim C8: on a bound request, the typed accessor returns none
exactly when the name is absent from the map, and on a present name it
returns the parser applied to the stored value. -/
theorem claim_c8_query_parsed_characterization (α ε : Type)
    (p : ByteStr → Except ε α) (req : Request) (m : QueryMap)
    (h : req.extQuery = some m) (name : ByteStr) :
    (query_parsed α ε p req name = Panics.ok none ↔ getQ m name = none) ∧
    (∀ v, getQ m name = some v →
        query_parsed α ε p req name = Panics.ok (some (p v))) := by
  have hq : queries req = Panics.ok m := by simp [queries, h]
  have hqy : ∀ k, query req k = Panics.ok (getQ m k) := by
    intro k; simp [query, hq]
  have hqp : query_parsed α ε p req name =
      Panics.ok ((getQ m name).map p) := by
    simp [query_parsed, hqy]
  constructor
  · rw [hqp]
    cases hg : getQ m name with
    | none => simp
    | some v => simp
  · intro v hv
    rw [hqp, hv]
    rfl

/-- Witness for C8: with the usize parser, a bound page=7 request
parses to 7, a bound page=seven request yields an invalid-digit
failure, and a bound request without page returns none. -/
theorem claim_c8_witness :
    query_parsed Nat IntErrorKind parseUsize
      (Request.mk (some [112, 97, 103, 101, 61, 55])
        (some [([112, 97, 103, 101], [55])]))
      [112, 97, 103, 101] = Panics.ok (some (Except.ok 7)) ∧
    query_parsed Nat IntErrorKind parseUsize
      (Request.mk (some [112, 97, 103, 101, 61, 115, 101, 118, 101, 110])
        (some [([112, 97, 103, 101], [115, 101, 118, 101, 110])]))
      [112, 97, 103, 101] =
        Panics.ok (some (Except.error IntErrorKind.invalidDigit)) ∧
    query_parsed Nat IntErrorKind parseUsize
      (Request.mk (some []) (some [])) [112, 97, 103, 101] =
        Panics.ok none := by
  refine ⟨?_, ?_, ?_⟩
  · have h := (claim_c8_query_parsed_characterization Nat IntErrorKind
        parseUsize
        (Request.mk (some [112, 97, 103, 101, 61, 55])
          (some [([112, 97, 103, 101], [55])]))
        [([112, 97, 103, 101], [55])] rfl [112, 97, 103, 101]).2
        [55] (by decide)
    have e : parseUsize [55] = Except.ok 7 := by decide
    rw [e] at h
    exact h
  · have h := (claim_c8_query_parsed_characterization Nat IntErrorKind
        parseUsize
        (Request.mk (some [112, 97, 103, 101, 61, 115, 101, 118, 101, 110])
          (some [([112, 97, 103, 101], [115, 101, 118, 101, 110])]))
        [([112, 97, 103, 101], [115, 101, 118, 101, 110])] rfl
        [112, 97, 103, 101]).2 [115, 101, 118, 101, 110] (by decide)
    have e : parseUsize [115, 101, 118, 101, 110] =
        Except.error IntErrorKind.invalidDigit := by decide
    rw [e] at h
    exact h
  · exact (claim_c8_query_parsed_characterization Nat IntErrorKind
      parseUsize (Request.mk (some []) (some [])) [] rfl
      [112, 97, 103, 101]).1.mpr rfl

/-- Claim C9: running the handler twice on a request yields the same
enriched request as running it once; the single extension slot holds
the map decoded from the unchanged URI. -/
theorem claim_c9_idempotent (ε : Type) (req r1 r2 : Request)
    (h1 : query_parser_middleware_handler ε req = Except.ok r1)
    (h2 : query_parser_middleware_handler ε r1 = Except.ok r2) :
    r2 = r1 ∧ r1.extQuery = some (decodeQuery req.uriQuery) := by
  have e1 := handler_ok ε req r1 h1
  have e2 := handler_ok ε r1 r2 h2
  subst e1
  exact ⟨e2, rfl⟩

/-- Witness for C9 at the query string a=1: the second run reproduces
the request of the first run exactly. -/
theorem claim_c9_witness :
    Request.mk (some [97, 61, 49]) (some [([97], [49])]) =
      Request.mk (some [97, 61, 49]) (some [([97], [49])]) ∧
    (Request.mk (some [97, 61, 49]) (some [([97], [49])])).extQuery =
      some (decodeQuery (some [97, 61, 49])) :=
  claim_c9_idempotent Unit (Request.mk (some [97, 61, 49]) none)
    (Request.mk (some [97, 61, 49]) (some [([97], [49])]))
    (Request.mk (some [97, 61, 49]) (some [([97], [49])]))
    (by decide) (by decide)

/-- Claim C10: empty ampersand-separated segments contribute no entry:
a trailing ampersand and a doubled ampersand leave the parse unchanged,
a present-but-empty query string decodes to the empty map, and the map
of a=1&&b=2 has no empty-name entry. -/
theorem claim_c10_empty_segments :
    (∀ s : ByteStr, parse (s ++ [38]) = parse s) ∧
    (∀ a b : ByteStr, parse (a ++ 38 :: 38 :: b) = parse (a ++ 38 :: b)) ∧
    decodeQuery (some []) = [] ∧
    getQ (decodeQuery (some [97, 61, 49, 38, 38, 98, 61, 50])) [] = none := by
  refine ⟨fun s => ?_, fun a b => ?_, by decide, by decide⟩
  · have e : s ++ [38] = s ++ 38 :: ([] : List Nat) := rfl
    rw [e, parse_append]
    simp [parse, splitAmp, decodeSeg]
  · rw [parse_append, parse_sep_cons, parse_append]

end RouterifyQuery
